import Mathlib

/-!
Shallow embedding of the client-side upload orchestrator in
`src/hooks/use-file-upload.ts` (Next.js GCS file uploader).

Pure functions of the hook become Lean functions; the stateful pipeline of
`uploadSingle` becomes an explicit list of keyed queue updates; effectful
boundaries (fetch, file streams, id/url generation) become explicit
parameters describing their outcomes.
-/

namespace Uploader

/-- Upload status, from `UploadStatus` in `use-file-upload.ts`. -/
inductive UploadStatus where
  | queued
  | signing
  | uploading
  | success
  | error
deriving DecidableEq, Repr

/-- The relevant observable fields of a browser `File`: name, MIME type
(`""` when the browser detects none) and byte size. -/
structure FileMeta where
  name : String
  type : String
  size : Nat
deriving DecidableEq, Repr

/-- Structure `UploadItem` from `use-file-upload.ts`: one queued upload's record. -/
structure UploadItem where
  id : String
  file : FileMeta
  previewUrl : Option String
  progress : Nat
  status : UploadStatus
  error : Option String := none
  publicUrl : Option String := none
  objectName : Option String := none
deriving DecidableEq, Repr

/-- Structure `UploadedFile` from `use-file-upload.ts`: the externally published record
for a successfully uploaded file. -/
structure UploadedFile where
  objectName : String
  publicUrl : String
  fileName : String
  contentType : String
  size : Nat
deriving DecidableEq, Repr

/-- Structure `UploadSignResponse` from `types/upload.ts`: the signed-URL grant. -/
structure UploadSignResponse where
  method : String
  uploadUrl : String
  headers : List (String × String)
  objectName : String
  publicUrl : String
  expiresAt : String
deriving DecidableEq, Repr

def DEFAULT_CONTENT_TYPE : String := "application/octet-stream"

/-- A value thrown by JS code: either an `Error` carrying a message, or any
non-`Error` value. -/
inductive Thrown where
  | errMsg (msg : String)
  | nonError
deriving DecidableEq, Repr

/-- The message `uploadSingle` extracts from a caught value
(`error instanceof Error ? error.message : "Upload failed"`). -/
def thrownMessage : Thrown → String
  | .errMsg m => m
  | .nonError => "Upload failed"

/-- Outcome of one `fetch` call: the promise rejects with a thrown value, or
resolves to a response with an `ok` flag and a numeric status. -/
inductive FetchResult where
  | thrown (reason : Thrown)
  | response (ok : Bool) (status : Nat)
deriving DecidableEq, Repr

/-! ## Grant requester: `readApiError` and `requestSignedUrl` -/

/-- What `response.json()` yields as far as `readApiError` inspects it:
parsing may fail, the `error` field may be absent or not a string, or it is
some string. -/
inductive ApiBody where
  | parseFailure
  | noStringError
  | errorString (s : String)
deriving DecidableEq, Repr

/-- The observable parts of an HTTP `Response` for the grant endpoint. -/
structure ApiResponse where
  ok : Bool
  status : Nat
  statusText : String
  body : ApiBody
deriving DecidableEq, Repr

/-- The synthesized message `` `Request failed with ${status} ${statusText}` ``. -/
def requestFailedMsg (r : ApiResponse) : String :=
  "Request failed with " ++ toString r.status ++ " " ++ r.statusText

/-- JS whitespace as far as `String.prototype.trim` removes it (the ASCII
part; enough for the strings this endpoint produces). -/
def jsIsWhitespace (c : Char) : Bool :=
  c = ' ' || c = '\t' || c = '\n' || c = '\r' || c = '\x0b' || c = '\x0c'

/-- Condition `s.trim().length > 0`: trimming removes leading and trailing
whitespace, so the trimmed length is positive exactly when some character
is not whitespace. -/
def trimNonempty (s : String) : Bool :=
  s.data.any fun c => !(jsIsWhitespace c)

/-- Function `readApiError` from `use-file-upload.ts`: use the body's `error` field
when it is a string with `trim().length > 0`, else the synthesized status
line. -/
def readApiError (r : ApiResponse) : String :=
  match r.body with
  | .errorString s => if trimNonempty s then s else requestFailedMsg r
  | _ => requestFailedMsg r

/-- Function `requestSignedUrl` from `use-file-upload.ts`, as a function of the grant
endpoint's response: a non-ok response throws `Error(readApiError response)`,
an ok response yields the parsed grant. -/
def requestSignedUrl (r : ApiResponse) (parsed : UploadSignResponse) :
    Except String UploadSignResponse :=
  if r.ok then .ok parsed else .error (readApiError r)

/-! ## Transfer executor: `uploadFileDirectToGcs` -/

/-- Expression `Math.round((uploadedBytes / size) * 100)` over exact rationals:
for `size > 0`, `(200 * uploadedBytes + size) / (2 * size)` is
`⌊100 * uploadedBytes / size + 1/2⌋`. -/
def jsRound100 (uploadedBytes size : Nat) : Nat :=
  (200 * uploadedBytes + size) / (2 * size)

/-- The per-chunk progress value
`Math.min(99, Math.max(1, Math.round((uploadedBytes / file.size) * 100)))`. -/
def progressPercent (uploadedBytes size : Nat) : Nat :=
  min 99 (max 1 (jsRound100 uploadedBytes size))

/-- The counting proxy stream's `pull` loop: given the remaining chunk sizes
and the running byte counter, the list of progress values reported (one per
chunk, in order). -/
def streamReportsAux (size : Nat) : List Nat → Nat → List Nat
  | [], _ => []
  | c :: rest, uploadedBytes =>
      progressPercent (uploadedBytes + c) size ::
        streamReportsAux size rest (uploadedBytes + c)

/-- Progress values reported while streaming a file of byte size `size`
whose stream yields chunks of the given byte lengths. -/
def streamReports (chunks : List Nat) (size : Nat) : List Nat :=
  streamReportsAux size chunks 0

/-- The message of the `TransferError` thrown on a non-success destination
status: `` `GCS upload failed with ${status}` ``. -/
def gcsFailMsg (status : Nat) : String :=
  "GCS upload failed with " ++ toString status

/-- The effectful environment one call of `uploadFileDirectToGcs` runs in:
whether `file.stream` is available, the chunk sizes its stream yields, and
the outcome of the streamed and of the buffered `fetch`. -/
structure TransferEnv where
  hasStream : Bool
  chunks : List Nat
  streamedFetch : FetchResult
  bufferedFetch : FetchResult
deriving DecidableEq, Repr

/-- Trace of one `uploadFileDirectToGcs` call: every `onProgress` value in
order, how many streamed and buffered requests were issued, and whether the
call returned normally or threw. -/
structure TransferTrace where
  reports : List Nat
  streamedAttempts : Nat
  bufferedAttempts : Nat
  outcome : Except Thrown Unit
deriving Repr

/-- The whole-buffer PUT path (used for empty/streamless files and as the
one-shot fallback): on ok report 100 and return, on non-ok throw
`TransferError`, on fetch rejection propagate the reason. -/
def bufferedAttempt (r : FetchResult) (streamedAttempts : Nat) : TransferTrace :=
  match r with
  | .thrown reason => ⟨[], streamedAttempts, 1, .error reason⟩
  | .response true _ => ⟨[100], streamedAttempts, 1, .ok ()⟩
  | .response false status =>
      ⟨[], streamedAttempts, 1, .error (.errMsg (gcsFailMsg status))⟩

/-- Function `uploadFileDirectToGcs` from `use-file-upload.ts` as a trace function:
empty or streamless files take the buffered path directly; otherwise the
streamed request is issued once, falling back to exactly one buffered
attempt when issuing it throws. -/
def uploadFileDirectToGcs (file : FileMeta) (env : TransferEnv) : TransferTrace :=
  if file.size = 0 ∨ env.hasStream = false then
    bufferedAttempt env.bufferedFetch 0
  else
    match env.streamedFetch with
    | .thrown _ => bufferedAttempt env.bufferedFetch 1
    | .response true _ =>
        ⟨streamReports env.chunks file.size ++ [100], 1, 0, .ok ()⟩
    | .response false status =>
        ⟨streamReports env.chunks file.size, 1, 0,
          .error (.errMsg (gcsFailMsg status))⟩

/-! ## Upload queue store: `updateItem` and the `uploadSingle` pipeline -/

/-- Function `updateItem` from `use-file-upload.ts`: the keyed-update primitive.
`setItems(current => current.map(item => item.id === id ? updater(item) : item))`. -/
def updateItem (id : String) (updater : UploadItem → UploadItem)
    (current : List UploadItem) : List UploadItem :=
  current.map fun item => if item.id = id then updater item else item

/-- The five keyed state updates `uploadSingle` enqueues, reified as data. -/
inductive QueueUpdate where
  | signing
  | uploading (signed : UploadSignResponse)
  | progress (p : Nat)
  | succeed (signed : UploadSignResponse)
  | fail (msg : String)
deriving DecidableEq, Repr

/-- The pure transform each `QueueUpdate` applies to the item's current
snapshot, exactly as written in `uploadSingle`. -/
def applyUpdate : QueueUpdate → UploadItem → UploadItem
  | .signing, c =>
      { c with status := .signing, progress := max c.progress 5, error := none }
  | .uploading signed, c =>
      { c with status := .uploading, progress := max c.progress 10,
               publicUrl := some signed.publicUrl,
               objectName := some signed.objectName }
  | .progress p, c => { c with status := .uploading, progress := p }
  | .succeed signed, c =>
      { c with status := .success, progress := 100,
               publicUrl := some signed.publicUrl,
               objectName := some signed.objectName, error := none }
  | .fail msg, c => { c with status := .error, error := some msg }

/-- Is this update the catch-block's error transition? -/
def QueueUpdate.isFail : QueueUpdate → Bool
  | .fail _ => true
  | _ => false

/-- The sequence of keyed updates one `uploadSingle(item)` call enqueues for
`item.id`, as a function of the grant outcome and the transfer environment.
Every thrown value is caught by the worker's catch block and becomes a
single `fail` update carrying `thrownMessage`. -/
def uploadSingleUpdates (item : UploadItem)
    (grant : Except Thrown UploadSignResponse) (env : TransferEnv) :
    List QueueUpdate :=
  QueueUpdate.signing ::
    match grant with
    | .error e => [.fail (thrownMessage e)]
    | .ok signed =>
        let t := uploadFileDirectToGcs item.file env
        QueueUpdate.uploading signed ::
          (t.reports.map QueueUpdate.progress ++
            match t.outcome with
            | .ok _ => [.succeed signed]
            | .error e => [.fail (thrownMessage e)])

/-- Apply a sequence of keyed updates for id `id` to the queue, in order:
each one is a separate `updateItem` call, so every intermediate queue value
is a reachable store state. -/
def applyUpdates (id : String) (us : List QueueUpdate)
    (q : List UploadItem) : List UploadItem :=
  us.foldl (fun acc u => updateItem id (applyUpdate u) acc) q

/-- The trajectory of a single item under a keyed update sequence: each step
re-checks the id, mirroring `updateItem`'s guard. -/
def iterUpdates (id : String) (us : List QueueUpdate) (it : UploadItem) :
    UploadItem :=
  us.foldl (fun acc u => if acc.id = id then applyUpdate u acc else acc) it

/-- All store states reached while a pipeline's update sequence is applied:
the queue after each prefix of the sequence. -/
def reachableStates (id : String) (us : List QueueUpdate)
    (q : List UploadItem) : List (List UploadItem) :=
  (List.range (us.length + 1)).map fun n => applyUpdates id (us.take n) q

/-! ## `addFiles`, `clearFinished` -/

/-- One freshly enqueued item, as `addFiles` builds it. -/
def mkQueuedItem (id : String) (preview : Option String) (file : FileMeta) :
    UploadItem :=
  { id := id, file := file, previewUrl := preview, progress := 0,
    status := .queued }

/-- Test `file.type.startsWith("image/")`, written over the character list so it
evaluates in the kernel. -/
def isImageType (t : String) : Bool :=
  t.data.take 6 = ['i', 'm', 'a', 'g', 'e', '/']

/-- The `newItems` array `addFiles` builds: one queued item per file, with
per-index generated ids (`createUploadId`) and preview object URLs
(`URL.createObjectURL`, only for `image/*` MIME types) supplied by the
environment. -/
def newItemsOf (files : List FileMeta) (idOf urlOf : Nat → String) :
    List UploadItem :=
  files.enum.map fun p =>
    mkQueuedItem (idOf p.1)
      (if isImageType p.2.type then some (urlOf p.1) else none) p.2

/-- Function `addFiles` from `use-file-upload.ts` restricted to its queue effect:
an empty batch is a no-op; otherwise
`setItems(current => [...newItems, ...current])`. -/
def addFiles (files : List FileMeta) (idOf urlOf : Nat → String)
    (current : List UploadItem) : List UploadItem :=
  if files.isEmpty then current else newItemsOf files idOf urlOf ++ current

/-- Is the item in a terminal (`success` or `error`) state? -/
def isFinished (it : UploadItem) : Bool :=
  it.status = .success || it.status = .error

/-- One turn of `clearFinished`'s revocation loop: a finished item owning a
preview URL has it revoked (appended to the revocation log) and its entry
deleted from the preview map. -/
def revokeStep (acc : List String × List (String × String))
    (it : UploadItem) : List String × List (String × String) :=
  match it.previewUrl with
  | some url =>
      if isFinished it then
        (acc.1 ++ [url], acc.2.filter fun kv => kv.1 ≠ it.id)
      else acc
  | none => acc

/-- Function `clearFinished` from `use-file-upload.ts`, with the preview-map ref
modelled as an association list. Returns the retained items, the object URLs
revoked (in iteration order), and the preview map after the deletions. -/
def clearFinished (items : List UploadItem) (pm : List (String × String)) :
    List UploadItem × List String × List (String × String) :=
  let nextItems := items.filter fun it => !(isFinished it)
  let final := items.foldl revokeStep ([], pm)
  (nextItems, final.1, final.2)

/-! ## Result reconciler: `uploadedFiles`, `uploadedSignature`, emission -/

/-- Derivation `uploadedFiles` from `use-file-upload.ts`: the queue-ordered derivation
of successful items having both `publicUrl` and `objectName`. -/
def uploadedFilesOf (items : List UploadItem) : List UploadedFile :=
  items.filterMap fun it =>
    match it.status, it.publicUrl, it.objectName with
    | .success, some pu, some ob =>
        some ⟨ob, pu, it.file.name,
          (if it.file.type = "" then DEFAULT_CONTENT_TYPE else it.file.type),
          it.file.size⟩
    | _, _, _ => none

/-- Model of `Array.prototype.join("::")`: the elements interleaved with `"::"`. -/
def joinSig : List String → String
  | [] => ""
  | [s] => s
  | s :: rest => s ++ "::" ++ joinSig rest

/-- Signature `uploadedSignature`: `uploadedFiles.map(f => f.objectName).join("::")`. -/
def uploadedSignature (files : List UploadedFile) : String :=
  joinSig (files.map fun f => f.objectName)

/-- The reconciler effect's state: the ref holding the last emitted
signature (initially `""`) and the log of lists passed to the observer. -/
structure ReconcilerState where
  lastSignature : String
  emissions : List (List UploadedFile)
deriving DecidableEq, Repr

/-- One run of the notification effect over a queue snapshot: derive the
list and its signature, compare with the ref, and emit only on change. -/
def reconcileStep (st : ReconcilerState) (items : List UploadItem) :
    ReconcilerState :=
  let files := uploadedFilesOf items
  let sig := uploadedSignature files
  if st.lastSignature = sig then st
  else ⟨sig, st.emissions ++ [files]⟩

/-- The effect runs once per observed queue snapshot, in order, starting
from the initial ref value `""`. -/
def reconcileRun (snapshots : List (List UploadItem)) : ReconcilerState :=
  snapshots.foldl reconcileStep ⟨"", []⟩

/-! ## Worker pool scheduler: `runUploadWorkers`

JavaScript is single-threaded: the claim step (read `nextIndex`, take
`entries[nextIndex]`, increment) contains no `await`, so it is atomic; the
only suspension point is `await worker(current)`. The pool is therefore an
interleaving of three atomic small steps per worker: claim the cursor, have
the awaited worker call complete, or observe the exhausted cursor and exit
the loop. -/

/-- Where one of the pool's parallel loop bodies is: at the `while` test,
suspended in `await worker(entries[i])`, or finished. -/
inductive WorkerPhase where
  | atLoop
  | busy (idx : Nat)
  | done
deriving DecidableEq, Repr

/-- Value `Math.max(1, Math.min(concurrency, entries.length))` — the number of
loop bodies `runUploadWorkers` spawns. -/
def workersCount (concurrency n : Nat) : Nat :=
  max 1 (min concurrency n)

/-- Global state of one `runUploadWorkers(entries, concurrency, worker)`
call over `n = entries.length` items: the shared cursor, each loop body's
phase, and the log of `(worker, index)` claims in the order they happened. -/
structure PoolState where
  nextIndex : Nat
  phases : List WorkerPhase
  claims : List (Nat × Nat)
deriving DecidableEq, Repr

/-- The pool's initial state: cursor 0, `workersCount` loop bodies at the
`while` test, nothing claimed. -/
def initPool (concurrency n : Nat) : PoolState :=
  ⟨0, List.replicate (workersCount concurrency n) .atLoop, []⟩

/-- One atomic scheduler step of `runUploadWorkers` over `n` items. -/
inductive PoolStep (n : Nat) : PoolState → PoolState → Prop where
  | claim (s : PoolState) (w : Nat) (hw : s.phases[w]? = some .atLoop)
      (hn : s.nextIndex < n) :
      PoolStep n s
        ⟨s.nextIndex + 1, s.phases.set w (.busy s.nextIndex),
          s.claims ++ [(w, s.nextIndex)]⟩
  | finish (s : PoolState) (w i : Nat)
      (hw : s.phases[w]? = some (.busy i)) :
      PoolStep n s ⟨s.nextIndex, s.phases.set w .atLoop, s.claims⟩
  | exit (s : PoolState) (w : Nat) (hw : s.phases[w]? = some .atLoop)
      (hn : n ≤ s.nextIndex) :
      PoolStep n s ⟨s.nextIndex, s.phases.set w .done, s.claims⟩

/-- States the pool can reach from its initial state. -/
def PoolReachable (concurrency n : Nat) (s : PoolState) : Prop :=
  Relation.ReflTransGen (PoolStep n) (initPool concurrency n) s

/-- Predicate stating `Promise.all` has resolved: every loop body has exited. -/
def allDone (s : PoolState) : Prop :=
  ∀ ph ∈ s.phases, ph = WorkerPhase.done

instance (s : PoolState) : Decidable (allDone s) := by
  unfold allDone; infer_instance

/-! ## Derived notions used by the verification -/

/-- A single item's trajectory under a pipeline's update sequence, once the
id matches (every update transform preserves `id`). -/
def runUpdates (us : List QueueUpdate) (it : UploadItem) : UploadItem :=
  us.foldl (fun a u => applyUpdate u a) it

/-- The item is in one of the two statuses a progress value of 100 can
legitimately accompany. -/
def statusGood (it : UploadItem) : Prop :=
  it.status = UploadStatus.uploading ∨ it.status = UploadStatus.success

instance (it : UploadItem) : Decidable (statusGood it) := by
  unfold statusGood; infer_instance

/-- The spec's data-model invariant: `progress == 100` implies
`status == success`, for every item of the queue. -/
def progressInvariant (q : List UploadItem) : Prop :=
  ∀ it ∈ q, it.progress = 100 → it.status = UploadStatus.success

instance (q : List UploadItem) : Decidable (progressInvariant q) := by
  unfold progressInvariant; infer_instance

/-- The thrown value `uploadSingle`'s catch block receives, when the attempt
fails: the grant's rejection, else the transfer's. `none` means the attempt
succeeded. -/
def failureOf (grant : Except Thrown UploadSignResponse) (file : FileMeta)
    (env : TransferEnv) : Option Thrown :=
  match grant with
  | .error e => some e
  | .ok _ =>
      match (uploadFileDirectToGcs file env).outcome with
      | .error e => some e
      | .ok _ => none

/-! ## Concrete sample values (for witnesses and counterexamples) -/

def sampleFile : FileMeta := ⟨"a.png", "image/png", 10⟩

def emptyFile : FileMeta := ⟨"a.bin", "", 0⟩

def sampleSigned : UploadSignResponse :=
  ⟨"PUT", "https://gcs/upload", [], "uploads/u1/x-a.png",
    "https://gcs/public/x-a.png", "2026-01-01T00:00:00Z"⟩

def sampleItem : UploadItem :=
  { id := "a", file := sampleFile, previewUrl := some "blob:a", progress := 0,
    status := .queued }

def emptyFileItem : UploadItem :=
  { id := "a", file := emptyFile, previewUrl := none, progress := 0,
    status := .queued }

def oldItem : UploadItem :=
  { id := "old", file := ⟨"b.txt", "text/plain", 3⟩, previewUrl := none,
    progress := 0, status := .queued }

def doneItem : UploadItem :=
  { id := "s", file := sampleFile, previewUrl := some "blob:s",
    progress := 100, status := .success, error := none,
    publicUrl := some "https://gcs/public/x-a.png",
    objectName := some "uploads/u1/x-a.png" }

/-- An environment where the buffered PUT succeeds with 200. -/
def bufferedOkEnv : TransferEnv :=
  ⟨false, [], .response true 200, .response true 200⟩

/-- An environment where issuing the streamed request throws and the
buffered fallback succeeds. -/
def fallbackOkEnv : TransferEnv :=
  ⟨true, [2, 3, 5], .thrown (.errMsg "half-duplex unsupported"),
    .response true 200⟩

/-- An environment where issuing the streamed request throws and the
buffered fallback returns HTTP 403. -/
def fallbackFailEnv : TransferEnv :=
  ⟨true, [2, 3, 5], .thrown (.errMsg "half-duplex unsupported"),
    .response false 403⟩

/-- An environment where the streamed request succeeds with 200. -/
def streamedOkEnv : TransferEnv :=
  ⟨true, [2, 3, 5], .response true 200, .response true 200⟩

/-! ## Shared helper lemmas -/

/-- Every pipeline transform preserves the item's id. -/
theorem applyUpdate_id (u : QueueUpdate) (c : UploadItem) :
    (applyUpdate u c).id = c.id := by
  cases u <;> rfl

/-- A sequence of keyed `updateItem` calls is a single map of the per-item
trajectory. -/
theorem applyUpdates_eq_map (id : String) (us : List QueueUpdate)
    (q : List UploadItem) :
    applyUpdates id us q = q.map (iterUpdates id us) := by
  induction us generalizing q with
  | nil =>
      simp only [applyUpdates, List.foldl_nil, iterUpdates]
      exact (List.map_id q).symm
  | cons u us ih =>
      simp only [applyUpdates, List.foldl_cons] at *
      rw [ih (updateItem id (applyUpdate u) q)]
      simp only [updateItem, List.map_map]
      rfl

/-- An item whose id differs is never touched by the trajectory. -/
theorem iterUpdates_of_ne (id : String) (us : List QueueUpdate)
    (it : UploadItem) (h : it.id ≠ id) : iterUpdates id us it = it := by
  induction us with
  | nil => rfl
  | cons u us ih =>
      simp only [iterUpdates, List.foldl_cons, if_neg h]
      exact ih

/-- For a matching id the trajectory is the plain fold of the transforms,
since every transform preserves the id. -/
theorem iterUpdates_of_eq (id : String) (us : List QueueUpdate)
    (it : UploadItem) (h : it.id = id) :
    iterUpdates id us it = runUpdates us it := by
  induction us generalizing it with
  | nil => rfl
  | cons u us ih =>
      simp only [iterUpdates, runUpdates, List.foldl_cons, if_pos h]
      exact ih (applyUpdate u it) (by rw [applyUpdate_id]; exact h)

theorem runUpdates_append (us vs : List QueueUpdate) (it : UploadItem) :
    runUpdates (us ++ vs) it = runUpdates vs (runUpdates us it) := by
  simp [runUpdates, List.foldl_append]

/-! ## C10: the keyed-update primitive is the identity for absent ids -/

/-- C10: for every item list and every id not equal to the id of any item
in the list, `updateItem id transform` leaves the list exactly unchanged,
so callbacks arriving for a removed item's id have no effect. -/
theorem updateItem_absent_id (id : String) (f : UploadItem → UploadItem)
    (items : List UploadItem) (h : ∀ it ∈ items, it.id ≠ id) :
    updateItem id f items = items := by
  unfold updateItem
  induction items with
  | nil => rfl
  | cons a t ih =>
      simp only [List.map_cons]
      rw [if_neg (h a (List.mem_cons_self a t)),
        ih fun it hit => h it (List.mem_cons_of_mem a hit)]

/-- Witness for C10 at a concrete queue and absent id. -/
theorem updateItem_absent_id_witness :
    updateItem "b" (applyUpdate (QueueUpdate.progress 50)) [sampleItem] =
      [sampleItem] :=
  updateItem_absent_id "b" _ [sampleItem] (by decide)

/-! ## C8: grant-request error message extraction -/

/-- C8 counterexample: the body field `" "` is a non-empty string, yet the
grant requester synthesizes the status-line message instead of using it. -/
theorem readApiError_nonempty_counterexample :
    " " ≠ "" ∧
    readApiError ⟨false, 500, "Internal Server Error", .errorString " "⟩ ≠
      " " ∧
    readApiError ⟨false, 500, "Internal Server Error", .errorString " "⟩ =
      "Request failed with 500 Internal Server Error" ∧
    requestSignedUrl ⟨false, 500, "Internal Server Error", .errorString " "⟩
        sampleSigned =
      Except.error
        (readApiError ⟨false, 500, "Internal Server Error", .errorString " "⟩)
    := by
  exact ⟨by decide, by decide, by decide, rfl⟩

/-- C8 (amended): a non-success response yields an error whose message is
the body's `error` string when that string is non-empty after trimming
whitespace, and otherwise the synthesized
`"Request failed with {status} {statusText}"`; a 401 with body error
`"Missing authentication context"` yields that message verbatim. -/
theorem requestSignedUrl_error_message (r : ApiResponse)
    (parsed : UploadSignResponse) (h : r.ok = false) :
    (∀ s, r.body = .errorString s → trimNonempty s = true →
        requestSignedUrl r parsed = .error s) ∧
    (∀ s, r.body = .errorString s → trimNonempty s = false →
        requestSignedUrl r parsed = .error (requestFailedMsg r)) ∧
    ((∀ s, r.body ≠ .errorString s) →
        requestSignedUrl r parsed = .error (requestFailedMsg r)) := by
  refine ⟨?_, ?_, ?_⟩
  · intro s hs hlen
    simp [requestSignedUrl, h, readApiError, hs, hlen]
  · intro s hs hlen
    simp [requestSignedUrl, h, readApiError, hs, hlen]
  · intro hs
    cases hb : r.body with
    | errorString s => exact absurd hb (hs s)
    | parseFailure => simp [requestSignedUrl, h, readApiError, hb]
    | noStringError => simp [requestSignedUrl, h, readApiError, hb]

/-- Witness for C8: the spec's 401 scenario, message surfaced verbatim. -/
theorem requestSignedUrl_error_message_witness :
    requestSignedUrl
        ⟨false, 401, "Unauthorized",
          .errorString "Missing authentication context"⟩ sampleSigned =
      Except.error "Missing authentication context" :=
  (requestSignedUrl_error_message
      ⟨false, 401, "Unauthorized",
        .errorString "Missing authentication context"⟩ sampleSigned rfl).1
    "Missing authentication context" rfl (by decide)

/-! ## C7: enqueue order -/

/-- C7 counterexample: with one prior item and one added file, the
resulting queue is not the prior items followed by the new items —
`addFiles` prepends. -/
theorem addFiles_append_counterexample :
    addFiles [sampleFile] (fun _ => "new") (fun _ => "blob:new") [oldItem] ≠
      [oldItem] ++ newItemsOf [sampleFile] (fun _ => "new") (fun _ => "blob:new") ∧
    addFiles [sampleFile] (fun _ => "new") (fun _ => "blob:new") [oldItem] =
      newItemsOf [sampleFile] (fun _ => "new") (fun _ => "blob:new") ++ [oldItem] := by
  constructor <;> decide

/-- C7 (amended): a non-empty batch is prepended — the resulting list is
the new items (status `queued`, progress 0, in the order the files were
given) followed by the prior items. -/
theorem addFiles_prepends (files : List FileMeta) (idOf urlOf : Nat → String)
    (current : List UploadItem) (h : files ≠ []) :
    addFiles files idOf urlOf current =
      newItemsOf files idOf urlOf ++ current ∧
    (newItemsOf files idOf urlOf).map UploadItem.file = files ∧
    ∀ it ∈ newItemsOf files idOf urlOf,
      it.status = UploadStatus.queued ∧ it.progress = 0 := by
  refine ⟨?_, ?_, ?_⟩
  · simp [addFiles, h]
  · simp only [newItemsOf, List.map_map]
    have : (UploadItem.file ∘ fun p : Nat × FileMeta =>
        mkQueuedItem (idOf p.1)
          (if isImageType p.2.type then some (urlOf p.1) else none)
          p.2) = Prod.snd := by
      funext p; rfl
    rw [this, List.enum_map_snd]
  · intro it hit
    simp only [newItemsOf, List.mem_map] at hit
    obtain ⟨p, _, rfl⟩ := hit
    exact ⟨rfl, rfl⟩

/-- Witness for C7's amended theorem at a concrete batch. -/
theorem addFiles_prepends_witness :
    addFiles [sampleFile] (fun _ => "new") (fun _ => "blob:new") [oldItem] =
      newItemsOf [sampleFile] (fun _ => "new") (fun _ => "blob:new") ++
        [oldItem] :=
  (addFiles_prepends [sampleFile] (fun _ => "new") (fun _ => "blob:new")
      [oldItem] (by decide)).1

/-! ## C9: clear-finished removes exactly the terminal items -/

/-- The revocation loop collects exactly the preview URLs of the finished
items, in queue order, one entry per finished item owning a preview. -/
theorem revokeLoop_fst (items : List UploadItem) :
    ∀ acc : List String × List (String × String),
      (items.foldl revokeStep acc).1 =
        acc.1 ++ (items.filter isFinished).filterMap UploadItem.previewUrl := by
  induction items with
  | nil => intro acc; simp
  | cons a t ih =>
      intro acc
      rw [List.foldl_cons, ih]
      cases hfin : isFinished a with
      | true =>
          cases hpu : a.previewUrl with
          | none => simp [revokeStep, hpu, hfin]
          | some url => simp [revokeStep, hpu, hfin]
      | false =>
          cases hpu : a.previewUrl with
          | none => simp [revokeStep, hpu, hfin]
          | some url => simp [revokeStep, hpu, hfin]

/-- Preview-map entries whose id belongs to no finished item survive the
revocation loop. -/
theorem revokeLoop_snd_mem (items : List UploadItem) :
    ∀ (acc : List String × List (String × String)) (kv : String × String),
      kv ∈ acc.2 → (∀ it ∈ items, it.id = kv.1 → isFinished it = false) →
      kv ∈ (items.foldl revokeStep acc).2 := by
  induction items with
  | nil => intro acc kv hkv _; exact hkv
  | cons a t ih =>
      intro acc kv hkv h
      rw [List.foldl_cons]
      refine ih _ kv ?_ fun it hit => h it (List.mem_cons_of_mem a hit)
      cases hpu : a.previewUrl with
      | none => simpa [revokeStep, hpu] using hkv
      | some url =>
          cases hfin : isFinished a with
          | false => simpa [revokeStep, hpu, hfin] using hkv
          | true =>
              have hne : kv.1 ≠ a.id := fun he => by
                have := h a (List.mem_cons_self a t) he.symm
                rw [hfin] at this
                cases this
              simp only [revokeStep, hpu, hfin, if_pos rfl, if_true]
              exact List.mem_filter.mpr ⟨hkv, by simpa using hne⟩

/-- C9: `clearFinished` retains exactly the items whose status is neither
`success` nor `error`, unchanged and in order; it revokes the preview of
each removed item that owns one (once each, in order), and preview-map
entries owned by retained items survive. -/
theorem clearFinished_spec (items : List UploadItem)
    (pm : List (String × String)) :
    ((clearFinished items pm).1 = items.filter fun it => !(isFinished it)) ∧
    (∀ it : UploadItem, isFinished it = false ↔
        (it.status ≠ UploadStatus.success ∧ it.status ≠ UploadStatus.error)) ∧
    ((clearFinished items pm).2.1 =
        (items.filter isFinished).filterMap UploadItem.previewUrl) ∧
    (∀ it ∈ items, isFinished it = false → it ∈ (clearFinished items pm).1) ∧
    (∀ kv ∈ pm, (∀ it ∈ items, it.id = kv.1 → isFinished it = false) →
        kv ∈ (clearFinished items pm).2.2) := by
  refine ⟨rfl, ?_, ?_, ?_, ?_⟩
  · intro it
    unfold isFinished
    cases it.status <;> simp
  · simpa using revokeLoop_fst items ([], pm)
  · intro it hit hfin
    exact List.mem_filter.mpr ⟨hit, by simp [hfin]⟩
  · intro kv hkv h
    exact revokeLoop_snd_mem items ([], pm) kv hkv h

/-- Witness for C9: one finished item with a preview and one queued item
with a live preview-map entry. -/
theorem clearFinished_spec_witness :
    ((clearFinished [doneItem, oldItem] [("s", "blob:s"), ("old", "blob:o")]).2.1
        = ["blob:s"]) ∧
    ("old", "blob:o") ∈
      (clearFinished [doneItem, oldItem]
          [("s", "blob:s"), ("old", "blob:o")]).2.2 := by
  constructor
  · rw [(clearFinished_spec [doneItem, oldItem]
      [("s", "blob:s"), ("old", "blob:o")]).2.2.1]
    decide
  · exact (clearFinished_spec [doneItem, oldItem]
      [("s", "blob:s"), ("old", "blob:o")]).2.2.2.2 ("old", "blob:o")
      (by decide) (by decide)

/-! ## C6: the uploaded-files notification fires once per distinct list -/

/-- The derived list is the queue-ordered filter of successful items having
both urls, mapped to the published record. -/
theorem uploadedFilesOf_eq_filter_map (items : List UploadItem) :
    uploadedFilesOf items =
      (items.filter fun it =>
          it.status = UploadStatus.success && it.publicUrl.isSome &&
            it.objectName.isSome).map
        fun it =>
          ⟨it.objectName.getD "", it.publicUrl.getD "", it.file.name,
            if it.file.type = "" then DEFAULT_CONTENT_TYPE else it.file.type,
            it.file.size⟩ := by
  induction items with
  | nil => rfl
  | cons a t ih =>
      cases hst : a.status <;>
        cases hpu : a.publicUrl <;>
          cases hob : a.objectName <;>
            simp [uploadedFilesOf, hst, hpu, hob, List.filterMap_cons] <;>
              simpa [uploadedFilesOf] using ih

/-- After any evaluation, the signature ref holds the signature of the
queue snapshot just evaluated. -/
theorem reconcileStep_lastSignature (st : ReconcilerState)
    (items : List UploadItem) :
    (reconcileStep st items).lastSignature =
      uploadedSignature (uploadedFilesOf items) := by
  unfold reconcileStep
  by_cases hc : st.lastSignature = uploadedSignature (uploadedFilesOf items)
  · simp only [if_pos hc]
    exact hc
  · simp only [if_neg hc]

/-- C6: the notification fires exactly once per distinct derived list —
an evaluation emits exactly when the derived list's join-signature differs
from the last emitted one, so two consecutive evaluations with equal
signatures (any unrelated mutation in between) never emit twice. -/
theorem uploadedFiles_notify_once (st : ReconcilerState)
    (a b : List UploadItem)
    (h : uploadedSignature (uploadedFilesOf a) =
      uploadedSignature (uploadedFilesOf b)) :
    (reconcileStep (reconcileStep st a) b = reconcileStep st a) ∧
    (∀ q, st.lastSignature = uploadedSignature (uploadedFilesOf q) →
        reconcileStep st q = st) ∧
    (∀ q, st.lastSignature ≠ uploadedSignature (uploadedFilesOf q) →
        (reconcileStep st q).emissions = st.emissions ++ [uploadedFilesOf q] ∧
          (reconcileStep st q).lastSignature =
            uploadedSignature (uploadedFilesOf q)) := by
  have hstep : ∀ (s : ReconcilerState) (q : List UploadItem),
      s.lastSignature = uploadedSignature (uploadedFilesOf q) →
      reconcileStep s q = s := by
    intro s q hq
    unfold reconcileStep
    rw [if_pos hq]
  refine ⟨?_, hstep st, ?_⟩
  · exact hstep _ b (by rw [reconcileStep_lastSignature, ← h])
  · intro q hq
    constructor
    · unfold reconcileStep
      rw [if_neg hq]
    · exact reconcileStep_lastSignature st q

/-- Witness for C6: a success-bearing queue, then the same queue with an
unrelated item at 41% progress — equal signatures, no second emission. -/
theorem uploadedFiles_notify_once_witness :
    reconcileStep (reconcileStep ⟨"", []⟩ [doneItem])
        [doneItem, { oldItem with status := .uploading, progress := 41 }] =
      reconcileStep ⟨"", []⟩ [doneItem] :=
  (uploadedFiles_notify_once ⟨"", []⟩ [doneItem]
      [doneItem, { oldItem with status := .uploading, progress := 41 }]
      (by decide)).1

/-! ## C2: streamed progress values -/

theorem progressPercent_bounds (u s : Nat) :
    1 ≤ progressPercent u s ∧ progressPercent u s ≤ 99 :=
  ⟨le_min (by norm_num) (le_max_left 1 _), min_le_left _ _⟩

theorem progressPercent_mono (s : Nat) {a b : Nat} (h : a ≤ b) :
    progressPercent a s ≤ progressPercent b s := by
  unfold progressPercent jsRound100
  exact min_le_min (le_refl 99)
    (max_le_max (le_refl 1) (Nat.div_le_div_right (by omega)))

theorem streamReportsAux_get (s : Nat) (chunks : List Nat) :
    ∀ (u i : Nat), i < chunks.length →
      (streamReportsAux s chunks u)[i]? =
        some (progressPercent (u + (chunks.take (i + 1)).sum) s) := by
  induction chunks with
  | nil => intro u i h; simp at h
  | cons c rest ih =>
      intro u i h
      cases i with
      | zero => simp [streamReportsAux]
      | succ j =>
          have hj : j < rest.length := by simpa using h
          simp only [streamReportsAux, List.getElem?_cons_succ]
          rw [ih (u + c) j hj]
          congr 2
          simp only [List.take, List.sum_cons]
          omega

theorem streamReportsAux_chain (s : Nat) (chunks : List Nat) :
    ∀ u : Nat, List.Chain' (· ≤ ·) (streamReportsAux s chunks u) := by
  induction chunks with
  | nil => intro u; simp [streamReportsAux]
  | cons c rest ih =>
      intro u
      cases rest with
      | nil => simp [streamReportsAux]
      | cons c2 r2 =>
          have h2 := ih (u + c)
          simp only [streamReportsAux] at h2 ⊢
          exact (List.chain'_cons).mpr
            ⟨progressPercent_mono s (by omega), h2⟩

theorem streamReportsAux_mem (s : Nat) (chunks : List Nat) :
    ∀ u p, p ∈ streamReportsAux s chunks u → 1 ≤ p ∧ p ≤ 99 := by
  induction chunks with
  | nil => intro u p h; simp [streamReportsAux] at h
  | cons c rest ih =>
      intro u p h
      simp only [streamReportsAux, List.mem_cons] at h
      cases h with
      | inl he => exact he ▸ progressPercent_bounds (u + c) s
      | inr ht => exact ih (u + c) p ht

/-- C2: during a streamed transfer of a non-empty file, the i-th reported
value is `min(99, max(1, round(countedBytes/totalBytes*100)))` of the first
`i+1` chunks' byte sum; the reported sequence is non-decreasing, each value
lies in `[1, 99]`, and 100 is appended only when the destination responds
ok — never on a non-success response. -/
theorem streamed_progress_spec (file : FileMeta) (env : TransferEnv)
    (hsize : 0 < file.size) (hstream : env.hasStream = true) :
    (∀ i, i < env.chunks.length →
        (streamReports env.chunks file.size)[i]? =
          some (min 99 (max 1
            (jsRound100 ((env.chunks.take (i + 1)).sum) file.size)))) ∧
    List.Chain' (· ≤ ·) (streamReports env.chunks file.size) ∧
    (∀ p ∈ streamReports env.chunks file.size, 1 ≤ p ∧ p ≤ 99) ∧
    (∀ st, env.streamedFetch = FetchResult.response true st →
        (uploadFileDirectToGcs file env).reports =
          streamReports env.chunks file.size ++ [100]) ∧
    (∀ st, env.streamedFetch = FetchResult.response false st →
        100 ∉ (uploadFileDirectToGcs file env).reports) := by
  have hcond : ¬(file.size = 0 ∨ env.hasStream = false) := by
    rintro (h0 | hs)
    · omega
    · rw [hstream] at hs; cases hs
  refine ⟨?_, streamReportsAux_chain file.size env.chunks 0,
    streamReportsAux_mem file.size env.chunks 0, ?_, ?_⟩
  · intro i hi
    have := streamReportsAux_get file.size env.chunks 0 i hi
    simpa [streamReports, progressPercent] using this
  · intro st hresp
    unfold uploadFileDirectToGcs
    rw [if_neg hcond, hresp]
  · intro st hresp hmem
    unfold uploadFileDirectToGcs at hmem
    rw [if_neg hcond, hresp] at hmem
    have := streamReportsAux_mem file.size env.chunks 0 100 hmem
    omega

/-- Witness for C2 with a 10-byte file streamed in chunks 2, 3, 5. -/
theorem streamed_progress_spec_witness :
    (uploadFileDirectToGcs sampleFile streamedOkEnv).reports =
      streamReports [2, 3, 5] 10 ++ [100] ∧
    (streamReports [2, 3, 5] 10)[0]? =
      some (min 99 (max 1 (jsRound100 2 10))) := by
  have h := streamed_progress_spec sampleFile streamedOkEnv
    (by decide) rfl
  exact ⟨h.2.2.2.1 200 rfl, h.1 0 (by decide)⟩

/-! ## C3: at most one buffered fallback when streamed issuance throws -/

/-- C3: when issuing the streamed request throws, exactly one buffered
attempt is made and the streamed path is not retried; a success status from
it reports 100 and returns normally, a non-success status fails the call
with the TransferError carrying that status, with no further attempt. -/
theorem streamed_fallback_once (file : FileMeta) (env : TransferEnv)
    (reason : Thrown) (hsize : 0 < file.size)
    (hstream : env.hasStream = true)
    (hthrow : env.streamedFetch = FetchResult.thrown reason) :
    (uploadFileDirectToGcs file env).streamedAttempts = 1 ∧
    (uploadFileDirectToGcs file env).bufferedAttempts = 1 ∧
    (∀ st, env.bufferedFetch = FetchResult.response true st →
        (uploadFileDirectToGcs file env).outcome = Except.ok () ∧
          (uploadFileDirectToGcs file env).reports = [100]) ∧
    (∀ st, env.bufferedFetch = FetchResult.response false st →
        (uploadFileDirectToGcs file env).outcome =
            Except.error (Thrown.errMsg (gcsFailMsg st)) ∧
          (uploadFileDirectToGcs file env).reports = []) := by
  have hcond : ¬(file.size = 0 ∨ env.hasStream = false) := by
    rintro (h0 | hs)
    · omega
    · rw [hstream] at hs; cases hs
  unfold uploadFileDirectToGcs
  rw [if_neg hcond, hthrow]
  refine ⟨?_, ?_, ?_, ?_⟩
  · cases env.bufferedFetch with
    | thrown r => rfl
    | response ok st => cases ok <;> rfl
  · cases env.bufferedFetch with
    | thrown r => rfl
    | response ok st => cases ok <;> rfl
  · intro st hb
    rw [hb]
    exact ⟨rfl, rfl⟩
  · intro st hb
    rw [hb]
    exact ⟨rfl, rfl⟩

/-- Witness for C3: streamed issuance throws; buffered fallback succeeds in
one environment and returns 403 in another. -/
theorem streamed_fallback_once_witness :
    ((uploadFileDirectToGcs sampleFile fallbackOkEnv).bufferedAttempts = 1 ∧
      (uploadFileDirectToGcs sampleFile fallbackOkEnv).outcome =
        Except.ok () ∧
      (uploadFileDirectToGcs sampleFile fallbackOkEnv).reports = [100]) ∧
    ((uploadFileDirectToGcs sampleFile fallbackFailEnv).bufferedAttempts = 1 ∧
      (uploadFileDirectToGcs sampleFile fallbackFailEnv).outcome =
        Except.error (Thrown.errMsg (gcsFailMsg 403))) := by
  have h1 := streamed_fallback_once sampleFile fallbackOkEnv
    (.errMsg "half-duplex unsupported") (by decide) rfl rfl
  have h2 := streamed_fallback_once sampleFile fallbackFailEnv
    (.errMsg "half-duplex unsupported") (by decide) rfl rfl
  exact ⟨⟨h1.2.1, (h1.2.2.1 200 rfl).1, (h1.2.2.1 200 rfl).2⟩,
    ⟨h2.2.1, (h2.2.2.2 403 rfl).1⟩⟩

/-! ## C5: per-item failures are caught and recorded exactly once -/

theorem filter_isFail_map_progress (rs : List Nat) :
    (rs.map QueueUpdate.progress).filter QueueUpdate.isFail = [] := by
  induction rs with
  | nil => rfl
  | cons r t ih => simp [QueueUpdate.isFail, ih]

/-- C5: when the grant or transfer step throws, the worker's catch block
applies exactly one error update — the pipeline's last — whose transform
sets status to `error` and the error field to the thrown `Error`'s message
(`"Upload failed"` for non-`Error` values) while leaving progress
unchanged; items with any other id are untouched by the whole pipeline. -/
theorem uploadSingle_failure (item : UploadItem)
    (grant : Except Thrown UploadSignResponse) (env : TransferEnv)
    (e : Thrown) (h : failureOf grant item.file env = some e) :
    ((uploadSingleUpdates item grant env).filter QueueUpdate.isFail =
        [QueueUpdate.fail (thrownMessage e)]) ∧
    ((uploadSingleUpdates item grant env).getLast? =
        some (QueueUpdate.fail (thrownMessage e))) ∧
    (∀ c : UploadItem,
        (applyUpdate (QueueUpdate.fail (thrownMessage e)) c).progress =
            c.progress ∧
          (applyUpdate (QueueUpdate.fail (thrownMessage e)) c).status =
            UploadStatus.error ∧
          (applyUpdate (QueueUpdate.fail (thrownMessage e)) c).error =
            some (thrownMessage e)) ∧
    (∀ (q : List UploadItem) (i : Nat) (it : UploadItem), q[i]? = some it →
        it.id ≠ item.id →
        (applyUpdates item.id (uploadSingleUpdates item grant env) q)[i]? =
          some it) := by
  refine ⟨?_, ?_, fun c => ⟨rfl, rfl, rfl⟩, ?_⟩
  · cases grant with
    | error e2 =>
        simp only [failureOf, Option.some.injEq] at h
        subst h
        simp [uploadSingleUpdates, QueueUpdate.isFail]
    | ok signed =>
        cases houtcome : (uploadFileDirectToGcs item.file env).outcome with
        | ok u => simp [failureOf, houtcome] at h
        | error e2 =>
            simp only [failureOf, houtcome, Option.some.injEq] at h
            subst h
            simp [uploadSingleUpdates, houtcome, QueueUpdate.isFail,
              List.filter_append, filter_isFail_map_progress]
  · cases grant with
    | error e2 =>
        simp only [failureOf, Option.some.injEq] at h
        subst h
        rfl
    | ok signed =>
        cases houtcome : (uploadFileDirectToGcs item.file env).outcome with
        | ok u => simp [failureOf, houtcome] at h
        | error e2 =>
            simp only [failureOf, houtcome, Option.some.injEq] at h
            subst h
            simp only [uploadSingleUpdates, houtcome]
            rw [← List.cons_append, ← List.cons_append]
            exact List.getLast?_concat _
  · intro q i it hq hne
    rw [applyUpdates_eq_map, List.getElem?_map, hq]
    simp [iterUpdates_of_ne _ _ it hne]

/-- Witness for C5: a failed grant on a one-sibling queue. -/
theorem uploadSingle_failure_witness :
    ((uploadSingleUpdates sampleItem
          (Except.error (Thrown.errMsg "Missing authentication context"))
          bufferedOkEnv).filter QueueUpdate.isFail =
        [QueueUpdate.fail "Missing authentication context"]) ∧
    (applyUpdates sampleItem.id
        (uploadSingleUpdates sampleItem
          (Except.error (Thrown.errMsg "Missing authentication context"))
          bufferedOkEnv) [oldItem])[0]? = some oldItem := by
  have h := uploadSingle_failure sampleItem
    (Except.error (Thrown.errMsg "Missing authentication context"))
    bufferedOkEnv (Thrown.errMsg "Missing authentication context") rfl
  exact ⟨h.1, h.2.2.2 [oldItem] 0 oldItem rfl (by decide)⟩

/-! ## C1: the `progress == 100 ⇒ success` invariant -/

/-- C1 counterexample: for a zero-byte file the buffered path invokes
`onProgress(100)` before the caller records `success`, so the queue state
right after that progress update — reachable after three of the pipeline's
four updates — holds `progress = 100` with status `uploading`. -/
theorem progress100_invariant_counterexample :
    (applyUpdates "a"
        ((uploadSingleUpdates emptyFileItem (Except.ok sampleSigned)
            bufferedOkEnv).take 3) [emptyFileItem]) ∈
      reachableStates "a"
        (uploadSingleUpdates emptyFileItem (Except.ok sampleSigned)
          bufferedOkEnv) [emptyFileItem] ∧
    ¬ progressInvariant
        (applyUpdates "a"
          ((uploadSingleUpdates emptyFileItem (Except.ok sampleSigned)
              bufferedOkEnv).take 3) [emptyFileItem]) := by
  constructor
  · decide
  · decide

/-- If a transfer trace ends in a throw, every value it reported is at most
99: the two paths report 100 only just before returning normally. -/
theorem reports_le_of_error (file : FileMeta) (env : TransferEnv)
    (e : Thrown) (h : (uploadFileDirectToGcs file env).outcome = .error e) :
    ∀ p ∈ (uploadFileDirectToGcs file env).reports, p ≤ 99 := by
  have hbuf : ∀ (r : FetchResult) (k : Nat),
      (bufferedAttempt r k).outcome = .error e →
      ∀ p ∈ (bufferedAttempt r k).reports, p ≤ 99 := by
    intro r k hr p hp
    cases r with
    | thrown reason => simp [bufferedAttempt] at hp
    | response ok st =>
        cases ok
        · simp [bufferedAttempt] at hp
        · simp [bufferedAttempt] at hr
  unfold uploadFileDirectToGcs at h ⊢
  by_cases hc : file.size = 0 ∨ env.hasStream = false
  · rw [if_pos hc] at h ⊢
    exact hbuf _ _ h
  · rw [if_neg hc] at h ⊢
    cases hs : env.streamedFetch with
    | thrown reason =>
        rw [hs] at h
        exact hbuf _ _ h
    | response ok st =>
        cases ok
        · intro p hp
          exact (streamReportsAux_mem file.size env.chunks 0 p hp).2
        · rw [hs] at h
          simp at h

theorem runUpdates_small (us : List QueueUpdate)
    (hu : ∀ u ∈ us, ∀ c : UploadItem, c.progress ≤ 99 →
      (applyUpdate u c).progress ≤ 99) :
    ∀ it : UploadItem, it.progress ≤ 99 → (runUpdates us it).progress ≤ 99 := by
  induction us with
  | nil => intro it h; exact h
  | cons u t ih =>
      intro it h
      show (runUpdates t (applyUpdate u it)).progress ≤ 99
      exact ih (fun v hv => hu v (List.mem_cons_of_mem u hv))
        (applyUpdate u it) (hu u (List.mem_cons_self u t) it h)

theorem runUpdates_good (us : List QueueUpdate)
    (hu : ∀ u ∈ us, ∀ c : UploadItem, statusGood c →
      statusGood (applyUpdate u c)) :
    ∀ it : UploadItem, statusGood it → statusGood (runUpdates us it) := by
  induction us with
  | nil => intro it h; exact h
  | cons u t ih =>
      intro it h
      show statusGood (runUpdates t (applyUpdate u it))
      exact ih (fun v hv => hu v (List.mem_cons_of_mem u hv))
        (applyUpdate u it) (hu u (List.mem_cons_self u t) it h)

/-- Every update of a failing pipeline keeps progress at or below 99:
the reports preceding the error update never reach 100, and the error
update leaves progress unchanged. -/
theorem uploadSingleUpdates_keepSmall (item : UploadItem)
    (grant : Except Thrown UploadSignResponse) (env : TransferEnv)
    (e : Thrown) (h : failureOf grant item.file env = some e) :
    ∀ u ∈ uploadSingleUpdates item grant env, ∀ c : UploadItem,
      c.progress ≤ 99 → (applyUpdate u c).progress ≤ 99 := by
  intro u hu c hc
  cases grant with
  | error e2 =>
      simp only [uploadSingleUpdates, List.mem_cons, List.mem_singleton,
        List.not_mem_nil, or_false] at hu
      rcases hu with rfl | rfl
      · exact max_le hc (by norm_num)
      · exact hc
  | ok signed =>
      cases houtcome : (uploadFileDirectToGcs item.file env).outcome with
      | ok u2 => simp [failureOf, houtcome] at h
      | error e2 =>
          have hrep := reports_le_of_error item.file env e2 houtcome
          simp only [uploadSingleUpdates, houtcome, List.mem_cons,
            List.mem_append, List.mem_map, List.mem_singleton,
            List.not_mem_nil, or_false] at hu
          rcases hu with rfl | rfl | ⟨r, hr, rfl⟩ | rfl
          · exact max_le hc (by norm_num)
          · exact max_le hc (by norm_num)
          · exact hrep r hr
          · exact hc

/-- Along any prefix of a single item's pipeline, a progress value of 100
only ever accompanies status `uploading` or `success`. -/
theorem pipeline_take_ok (item : UploadItem)
    (grant : Except Thrown UploadSignResponse) (env : TransferEnv)
    (it0 : UploadItem) (h0 : it0.progress ≤ 99) (n : Nat) :
    (runUpdates ((uploadSingleUpdates item grant env).take n) it0).progress
        = 100 →
      statusGood
        (runUpdates ((uploadSingleUpdates item grant env).take n) it0) := by
  cases hfail : failureOf grant item.file env with
  | some e =>
      intro h100
      have hsmall := runUpdates_small
        ((uploadSingleUpdates item grant env).take n)
        (fun u hu => uploadSingleUpdates_keepSmall item grant env e hfail u
          (List.take_subset n _ hu)) it0 h0
      omega
  | none =>
      cases grant with
      | error e2 => simp [failureOf] at hfail
      | ok signed =>
          cases houtcome : (uploadFileDirectToGcs item.file env).outcome with
          | error e2 => simp [failureOf, houtcome] at hfail
          | ok u2 =>
              have hL : uploadSingleUpdates item (Except.ok signed) env =
                  QueueUpdate.signing :: QueueUpdate.uploading signed ::
                    ((uploadFileDirectToGcs item.file env).reports.map
                        QueueUpdate.progress ++
                      [QueueUpdate.succeed signed]) := by
                simp [uploadSingleUpdates, houtcome]
              rw [hL]
              match n with
              | 0 =>
                  intro h100
                  simp only [List.take_zero] at h100
                  exact absurd h100 (by
                    show ¬(runUpdates [] it0).progress = 100
                    show ¬it0.progress = 100
                    omega)
              | 1 =>
                  intro h100
                  simp only [List.take_succ_cons, List.take_zero] at h100
                  have hle : (runUpdates [QueueUpdate.signing] it0).progress
                      ≤ 99 := by
                    show max it0.progress 5 ≤ 99
                    exact max_le h0 (by norm_num)
                  exact absurd h100 (by omega)
              | (k + 2) =>
                  intro _
                  simp only [List.take_succ_cons]
                  show statusGood (runUpdates
                    (((uploadFileDirectToGcs item.file env).reports.map
                        QueueUpdate.progress ++
                      [QueueUpdate.succeed signed]).take k)
                    (applyUpdate (QueueUpdate.uploading signed)
                      (applyUpdate QueueUpdate.signing it0)))
                  apply runUpdates_good
                  · intro u hu c _
                    have humem := List.take_subset k _ hu
                    rcases List.mem_append.mp humem with hmap | hsing
                    · obtain ⟨r, _, rfl⟩ := List.mem_map.mp hmap
                      exact Or.inl rfl
                    · rw [List.mem_singleton.mp hsing]
                      exact Or.inr rfl
                  · exact Or.inl rfl

/-- After the full pipeline, progress 100 on the updated item means the
pipeline recorded success. -/
theorem pipeline_final_success (item : UploadItem)
    (grant : Except Thrown UploadSignResponse) (env : TransferEnv)
    (it0 : UploadItem) (h0 : it0.progress ≤ 99) :
    (runUpdates (uploadSingleUpdates item grant env) it0).progress = 100 →
      (runUpdates (uploadSingleUpdates item grant env) it0).status =
        UploadStatus.success := by
  cases hfail : failureOf grant item.file env with
  | some e =>
      intro h100
      have hsmall := runUpdates_small (uploadSingleUpdates item grant env)
        (uploadSingleUpdates_keepSmall item grant env e hfail) it0 h0
      omega
  | none =>
      cases grant with
      | error e2 => simp [failureOf] at hfail
      | ok signed =>
          cases houtcome : (uploadFileDirectToGcs item.file env).outcome with
          | error e2 => simp [failureOf, houtcome] at hfail
          | ok u2 =>
              intro _
              have hL : uploadSingleUpdates item (Except.ok signed) env =
                  (QueueUpdate.signing :: QueueUpdate.uploading signed ::
                    (uploadFileDirectToGcs item.file env).reports.map
                      QueueUpdate.progress) ++
                    [QueueUpdate.succeed signed] := by
                simp [uploadSingleUpdates, houtcome]
              rw [hL, runUpdates_append]
              rfl

/-- C1 (amended): in every reachable queue state of a pipeline run,
`progress = 100` implies status `uploading` or `success` (the window
between `onProgress(100)` and the success update shows `uploading`), and
once the pipeline's updates have all been applied, `progress = 100` on the
updated item implies status `success`. -/
theorem progress100_invariant (item : UploadItem)
    (grant : Except Thrown UploadSignResponse) (env : TransferEnv)
    (q : List UploadItem)
    (hq99 : ∀ it ∈ q, it.id = item.id → it.progress ≤ 99)
    (hqok : ∀ it ∈ q, it.progress = 100 → statusGood it) :
    (∀ s ∈ reachableStates item.id (uploadSingleUpdates item grant env) q,
        ∀ it ∈ s, it.progress = 100 → statusGood it) ∧
    (∀ it ∈ applyUpdates item.id (uploadSingleUpdates item grant env) q,
        it.id = item.id → it.progress = 100 →
          it.status = UploadStatus.success) := by
  constructor
  · intro s hs it hit h100
    simp only [reachableStates, List.mem_map, List.mem_range] at hs
    obtain ⟨n, _, rfl⟩ := hs
    rw [applyUpdates_eq_map] at hit
    obtain ⟨it1, hit1, rfl⟩ := List.mem_map.mp hit
    by_cases hid : it1.id = item.id
    · rw [iterUpdates_of_eq _ _ _ hid] at h100 ⊢
      exact pipeline_take_ok item grant env it1 (hq99 it1 hit1 hid) n h100
    · rw [iterUpdates_of_ne _ _ _ hid] at h100 ⊢
      exact hqok it1 hit1 h100
  · intro it hit hid h100
    rw [applyUpdates_eq_map] at hit
    obtain ⟨it1, hit1, rfl⟩ := List.mem_map.mp hit
    by_cases hid1 : it1.id = item.id
    · rw [iterUpdates_of_eq _ _ _ hid1] at h100 ⊢
      exact pipeline_final_success item grant env it1 (hq99 it1 hit1 hid1)
        h100
    · rw [iterUpdates_of_ne _ _ _ hid1] at hid
      exact absurd hid hid1

/-- Witness for C1's amended theorem: the zero-byte-file pipeline on a
one-item queue, evaluated at the state right after `onProgress(100)`. -/
theorem progress100_invariant_witness :
    statusGood ((applyUpdates emptyFileItem.id
        ((uploadSingleUpdates emptyFileItem (Except.ok sampleSigned)
            bufferedOkEnv).take 3) [emptyFileItem]).getD 0 emptyFileItem) :=
  (progress100_invariant emptyFileItem (Except.ok sampleSigned)
      bufferedOkEnv [emptyFileItem] (by decide) (by decide)).1
    (applyUpdates emptyFileItem.id
      ((uploadSingleUpdates emptyFileItem (Except.ok sampleSigned)
          bufferedOkEnv).take 3) [emptyFileItem])
    (by decide)
    ((applyUpdates emptyFileItem.id
        ((uploadSingleUpdates emptyFileItem (Except.ok sampleSigned)
            bufferedOkEnv).take 3) [emptyFileItem]).getD 0 emptyFileItem)
    (by decide) (by decide)

/-! ## C4: the worker pool drains the list exactly once, in order -/

/-- The pool's inductive invariant: the claim log is exactly
`0, 1, …, nextIndex-1` in order, the cursor never passes the list's end,
the worker count is fixed, and a worker can only have exited after the
cursor reached the end. -/
structure PoolInv (c n : Nat) (s : PoolState) : Prop where
  claims_eq : s.claims.map Prod.snd = List.range s.nextIndex
  le_n : s.nextIndex ≤ n
  len : s.phases.length = workersCount c n
  done_imp : (∃ ph ∈ s.phases, ph = WorkerPhase.done) → n ≤ s.nextIndex

theorem poolInv_init (c n : Nat) : PoolInv c n (initPool c n) := by
  refine ⟨rfl, Nat.zero_le n, List.length_replicate _ _, ?_⟩
  rintro ⟨ph, hph, rfl⟩
  have := List.eq_of_mem_replicate hph
  cases this

theorem poolInv_step {c n : Nat} {s s2 : PoolState} (hinv : PoolInv c n s)
    (hstep : PoolStep n s s2) : PoolInv c n s2 := by
  cases hstep with
  | claim w hw hn =>
      refine ⟨?_, ?_, ?_, ?_⟩
      · show (s.claims ++ [(w, s.nextIndex)]).map Prod.snd =
          List.range (s.nextIndex + 1)
        simp [List.map_append, hinv.claims_eq, List.range_succ]
      · show s.nextIndex + 1 ≤ n
        have := hinv.le_n
        omega
      · show (s.phases.set w (WorkerPhase.busy s.nextIndex)).length =
          workersCount c n
        simp [List.length_set, hinv.len]
      · rintro ⟨ph, hph, rfl⟩
        show n ≤ s.nextIndex + 1
        rcases List.mem_or_eq_of_mem_set hph with hmem | heq
        · have := hinv.done_imp ⟨_, hmem, rfl⟩
          omega
        · cases heq
  | finish w i hw =>
      refine ⟨hinv.claims_eq, hinv.le_n, ?_, ?_⟩
      · show (s.phases.set w WorkerPhase.atLoop).length = workersCount c n
        simp [List.length_set, hinv.len]
      · rintro ⟨ph, hph, rfl⟩
        show n ≤ s.nextIndex
        rcases List.mem_or_eq_of_mem_set hph with hmem | heq
        · exact hinv.done_imp ⟨_, hmem, rfl⟩
        · cases heq
  | exit w hw hn =>
      refine ⟨hinv.claims_eq, hinv.le_n, ?_, fun _ => hn⟩
      show (s.phases.set w WorkerPhase.done).length = workersCount c n
      simp [List.length_set, hinv.len]

theorem poolInv_reachable {c n : Nat} {s : PoolState}
    (h : PoolReachable c n s) : PoolInv c n s := by
  induction h with
  | refl => exact poolInv_init c n
  | tail hab hbc ih => exact poolInv_step ih hbc

/-- C4: when the pool's promise resolves (every loop body done), the pool
ran exactly `max(1, min(concurrency, n))` workers, the claim log in order
is exactly the indices `0, …, n-1` — each item claimed exactly once, in
the list's original order, none skipped — and no worker invocation is
still outstanding. -/
theorem runUploadWorkers_spec (c n : Nat) (s : PoolState)
    (hr : PoolReachable c n s) (hd : allDone s) :
    s.phases.length = workersCount c n ∧
    s.claims.map Prod.snd = List.range n ∧
    (∀ i, i < n → (s.claims.map Prod.snd).count i = 1) ∧
    List.Pairwise (· < ·) (s.claims.map Prod.snd) ∧
    (∀ (w i : Nat), s.phases[w]? ≠ some (WorkerPhase.busy i)) := by
  have hinv := poolInv_reachable hr
  have hge : n ≤ s.nextIndex := by
    have hpos : 0 < s.phases.length := by
      rw [hinv.len]
      unfold workersCount
      omega
    obtain ⟨ph, hph⟩ := List.exists_mem_of_length_pos hpos
    exact hinv.done_imp ⟨ph, hph, hd ph hph⟩
  have heq : s.nextIndex = n := le_antisymm hinv.le_n hge
  refine ⟨hinv.len, ?_, ?_, ?_, ?_⟩
  · rw [hinv.claims_eq, heq]
  · intro i hi
    rw [hinv.claims_eq, heq]
    exact List.count_eq_one_of_mem (List.nodup_range n)
      (List.mem_range.mpr hi)
  · rw [hinv.claims_eq, heq]
    exact List.pairwise_lt_range n
  · intro w i hbusy
    have hmem := List.getElem?_mem hbusy
    have := hd _ hmem
    cases this

/-- Witness for C4: one worker drains a one-item list — claim, completion,
exit — and the terminal state claims exactly index 0 once. -/
theorem runUploadWorkers_spec_witness :
    (PoolState.mk 1 [WorkerPhase.done] [(0, 0)]).claims.map Prod.snd =
      List.range 1 ∧
    (PoolState.mk 1 [WorkerPhase.done] [(0, 0)]).phases.length =
      workersCount 1 1 := by
  have h1 : PoolStep 1 (initPool 1 1)
      ⟨1, [WorkerPhase.busy 0], [(0, 0)]⟩ :=
    PoolStep.claim (initPool 1 1) 0 rfl (by decide)
  have h2 : PoolStep 1 (PoolState.mk 1 [WorkerPhase.busy 0] [(0, 0)])
      ⟨1, [WorkerPhase.atLoop], [(0, 0)]⟩ :=
    PoolStep.finish _ 0 0 rfl
  have h3 : PoolStep 1 (PoolState.mk 1 [WorkerPhase.atLoop] [(0, 0)])
      ⟨1, [WorkerPhase.done], [(0, 0)]⟩ :=
    PoolStep.exit _ 0 rfl (by decide)
  have hr : PoolReachable 1 1 ⟨1, [WorkerPhase.done], [(0, 0)]⟩ :=
    Relation.ReflTransGen.tail
      (Relation.ReflTransGen.tail (Relation.ReflTransGen.single h1) h2) h3
  have h := runUploadWorkers_spec 1 1 ⟨1, [WorkerPhase.done], [(0, 0)]⟩ hr
    (by decide)
  exact ⟨h.2.1, h.1⟩

end Uploader
